import Mathlib

/-!
Verification of `llm_qus_analyzer/individual/conceptually.py`.

The module is embedded shallowly: Python's dynamically typed JSON-like
values become the inductive type `PyVal`, Python dictionaries become
association lists with string keys, and code that can raise a Python
exception returns `Except PyError`.  The external collaborators
(`LLMAnalyzer.run`, `LLMClient`, `LLMResult`) are not part of this file's
source; calls into them are modelled by an explicit function parameter
`RunFn`, so that "the analyzer is invoked" is expressed as dependence of
the result on that parameter.
-/

/-- JSON-like Python values, as produced by parsing an LLM response.
`dict` is an association list with string keys (JSON object keys are
strings); lookups take the first matching binding, which agrees with
Python dictionaries since those never hold a duplicated key. -/
inductive PyVal where
  | none : PyVal
  | bool : Bool → PyVal
  | int : Int → PyVal
  | str : String → PyVal
  | list : List PyVal → PyVal
  | dict : List (String × PyVal) → PyVal
deriving Repr

/-- Python exceptions that the embedded code can raise. -/
inductive PyError where
  | typeError : PyError
  | attributeError : PyError
deriving Repr, DecidableEq

/-- `d.get(k)` on a Python dictionary: the value bound to `k`, if any. -/
def dictGet (es : List (String × PyVal)) (k : String) : Option PyVal :=
  match es with
  | [] => Option.none
  | (k', v) :: rest => if k' = k then some v else dictGet rest k

/-- `d.get(k, default)` on a Python dictionary. -/
def dictGetD (es : List (String × PyVal)) (k : String) (d : PyVal) : PyVal :=
  (dictGet es k).getD d

/-- Python truthiness of a JSON-like value (`bool(v)`). -/
def truthy : PyVal → Bool
  | PyVal.none => false
  | PyVal.bool b => b
  | PyVal.int n => n != 0
  | PyVal.str s => s != ""
  | PyVal.list xs => !xs.isEmpty
  | PyVal.dict es => !es.isEmpty

/-- `isinstance(v, str)` (conceptually.py line 91). -/
def isStrB : PyVal → Bool
  | PyVal.str _ => true
  | _ => false

/-- `isinstance(v, dict)` (conceptually.py lines 87 and 101). -/
def isDictB : PyVal → Bool
  | PyVal.dict _ => true
  | _ => false

/-- `isinstance(v, list)` (conceptually.py line 99). -/
def isListB : PyVal → Bool
  | PyVal.list _ => true
  | _ => false

/-- `isinstance(v, bool)`: whether a Python value is a boolean.  Used only
to state claims about the type of the `valid` field. -/
def isBoolB : PyVal → Bool
  | PyVal.bool _ => true
  | _ => false

/-- A Python value is hashable unless it is a list or a dictionary; an
unhashable dictionary key raises `TypeError`. -/
def hashable : PyVal → Bool
  | PyVal.list _ => false
  | PyVal.dict _ => false
  | _ => true

/-- Embeds `..type.Violation` as used by conceptually.py: the `parts`
collection of a violation together with its `issue` and `suggestion`
payloads.  In the source, `parts` is either a singleton set literal
`{part}` or the empty literal `{}` (an empty Python dict, extensionally
an empty collection); both are modelled as a `Finset String`.  `issue`
and `suggestion` come straight out of the parsed JSON, so they keep the
dynamic type `PyVal`. -/
structure Violation where
  parts : Finset String
  issue : PyVal
  suggestion : PyVal

/-- `CSVerdictData` (conceptually.py lines 47-55).  The dataclass annotates
`valid` as `bool`, but Python does not enforce the annotation, so the field
keeps the dynamic type `PyVal`. -/
structure CSVerdictData where
  valid : PyVal
  violations : List Violation

/-- `Violation({}, "Unknown", "Unknown")` — the placeholder violation
(conceptually.py line 97). -/
def defaultVio : Violation :=
  ⟨∅, PyVal.str "Unknown", PyVal.str "Unknown"⟩

/-- `_PART_MAP.get(k)` (conceptually.py lines 58-61 and 102): maps the
strings `"[Means]"` and `"[Ends]"` to `"means"` and `"ends"`; any other
hashable key finds nothing; an unhashable key raises `TypeError`. -/
def partMapGet (k : PyVal) : Except PyError (Option String) :=
  match k with
  | PyVal.list _ => Except.error PyError.typeError
  | PyVal.dict _ => Except.error PyError.typeError
  | PyVal.str s =>
      Except.ok (if s = "[Means]" then some "means"
                 else if s = "[Ends]" then some "ends"
                 else Option.none)
  | _ => Except.ok Option.none

/-- `{part} if part else {}` (conceptually.py line 105). -/
def partsOf : Option String → Finset String
  | some s => {s}
  | Option.none => ∅

/-- The `for t in tmp` loop of `CSVerdictParserModel.__parser`
(conceptually.py lines 100-109): each dictionary entry contributes one
`Violation` built from its `part`, `issue` and `suggestion` keys; other
entries are skipped; a `TypeError` from `_PART_MAP.get` propagates. -/
def convEntries : List PyVal → Except PyError (List Violation)
  | [] => Except.ok []
  | t :: ts =>
    match t with
    | PyVal.dict fs =>
      match partMapGet (dictGetD fs "part" (PyVal.str "")) with
      | Except.error e => Except.error e
      | Except.ok p =>
        match convEntries ts with
        | Except.error e => Except.error e
        | Except.ok rest =>
          Except.ok (⟨partsOf p,
                      dictGetD fs "issue" (PyVal.str ""),
                      dictGetD fs "suggestion" PyVal.none⟩ :: rest)
    | _ => convEntries ts

/-- The `valid` normalisation of `CSVerdictParserModel.__parser`
(conceptually.py lines 90-94): a string compares against `"true"`, `None`
becomes `False`, everything else passes through unchanged. -/
def parseValid (v : PyVal) : PyVal :=
  match v with
  | PyVal.str s => PyVal.bool (s == "true")
  | PyVal.none => PyVal.bool false
  | w => w

/-- The `tmp = raw_json.get("violations", [])` fetch and its
`isinstance(tmp, list)` guard (conceptually.py lines 98-99): the entry
list when `tmp` is a list, and the empty list otherwise (the loop body
then never runs). -/
def entriesOf (es : List (String × PyVal)) : List PyVal :=
  match dictGetD es "violations" (PyVal.list []) with
  | PyVal.list xs => xs
  | _ => []

/-- `CSVerdictParserModel.__parser` (conceptually.py lines 78-113): a
non-dictionary input yields the default verdict; otherwise `valid` is
normalised, the `violations` list is converted entry by entry (a non-list
value is ignored, see `entriesOf`), and a placeholder violation is
appended when `valid` is falsy and no violation was collected. -/
def parseVerdict (raw : PyVal) : Except PyError CSVerdictData :=
  match raw with
  | PyVal.dict es =>
    let valid := parseValid (dictGetD es "valid" (PyVal.bool false))
    match convEntries (entriesOf es) with
    | Except.error e => Except.error e
    | Except.ok vios =>
      Except.ok ⟨valid,
        if !truthy valid && vios.isEmpty then vios ++ [defaultVio] else vios⟩
  | _ => Except.ok ⟨PyVal.bool false, []⟩

/-- Whether a `violations` entry avoids the `TypeError` path: a dictionary
entry is safe when its `part` value is hashable; every other entry is
skipped before any hashing happens. -/
def entryPartHashable (t : PyVal) : Bool :=
  match t with
  | PyVal.dict fs => hashable (dictGetD fs "part" (PyVal.str ""))
  | _ => true

/-- The violation contributed by one entry of the `violations` list, when
no exception interrupts the loop: dictionary entries contribute one
violation, other entries none. -/
def entryVio (t : PyVal) : Option Violation :=
  match t with
  | PyVal.dict fs =>
    match partMapGet (dictGetD fs "part" (PyVal.str "")) with
    | Except.ok p =>
        some ⟨partsOf p,
              dictGetD fs "issue" (PyVal.str ""),
              dictGetD fs "suggestion" PyVal.none⟩
    | Except.error _ => Option.none
  | _ => Option.none

/-- Whether every `violations` entry of the raw input has a hashable
`part` value, so that parsing cannot raise. -/
def violationsHashOK (raw : PyVal) : Bool :=
  match raw with
  | PyVal.dict es =>
    match dictGetD es "violations" (PyVal.list []) with
    | PyVal.list xs => xs.all entryPartHashable
    | _ => true
  | _ => true

/-- `QUSComponent` as consumed here: only its optional `means` and `ends`
string fields are read by this module. -/
structure QUSComponent where
  means : Option String
  ends : Option String

/-- `LLMClient`: external, opaque to this module; it is only forwarded to
the analyzer call. -/
structure LLMClient where

/-- `LLMResult` / `LLMUsage`: external result object, opaque to this
module; it is only forwarded out of the analyzer call. -/
structure LLMResult where

/-- A dynamically typed Python argument as it can flow into
`analyze_single`: either an integer model index or a `QUSComponent`.
Needed because `ConceptuallySoundAnalyzer.__not_violated` passes these two
arguments in swapped order (conceptually.py lines 179-181). -/
inductive DynVal where
  | int : Int → DynVal
  | comp : QUSComponent → DynVal

/-- `x.means` on a dynamic value: reading the attribute on an integer
raises `AttributeError`. -/
def getMeans : DynVal → Except PyError (Option String)
  | DynVal.comp c => Except.ok c.means
  | DynVal.int _ => Except.error PyError.attributeError

/-- `x.ends` on a dynamic value: reading the attribute on an integer
raises `AttributeError`. -/
def getEnds : DynVal → Except PyError (Option String)
  | DynVal.comp c => Except.ok c.ends
  | DynVal.int _ => Except.error PyError.attributeError

/-- The external `LLMAnalyzer.run` call (conceptually.py line 131),
modelled as an arbitrary function: it receives the client, the value
passed in the `model_idx` position, and the `values` template dictionary
`{"means": means, "ends": ends}`, and produces a parsed verdict together
with an optional result object.  Quantifying theorems over `RunFn` makes
"the analyzer is (not) invoked" expressible as (in)dependence on it. -/
def RunFn : Type :=
  LLMClient → DynVal → String × Option String → CSVerdictData × Option LLMResult

/-- `CSVerdictParserModel.analyze_single` (conceptually.py lines 115-132):
returns `([], None)` when `component.means is None`, otherwise invokes the
analyzer and returns its violations and usage.  The `component` parameter
is dynamic: when an integer arrives in that position (as happens through
`__not_violated`'s swapped call), the `component.means` attribute access
raises `AttributeError`. -/
def analyze_single (run : RunFn) (client : LLMClient) (model_idx : DynVal)
    (component : DynVal) : Except PyError (List Violation × Option LLMResult) :=
  match getMeans component with
  | Except.error e => Except.error e
  | Except.ok Option.none => Except.ok ([], Option.none)
  | Except.ok (some m) =>
    match getEnds component with
    | Except.error e => Except.error e
    | Except.ok ends =>
      let (data, usage) := run client model_idx (m, ends)
      Except.ok (data.violations, usage)

/-- `CSVerdictParserModel.analyze_list` (conceptually.py lines 134-150):
the list comprehension applying `analyze_single` to every component. -/
def analyze_list (run : RunFn) (client : LLMClient) (model_idx : Int)
    (components : List QUSComponent) :
    List (Except PyError (List Violation × Option LLMResult)) :=
  components.map (fun c => analyze_single run client (DynVal.int model_idx) (DynVal.comp c))

/-- `ConceptuallySoundAnalyzer.__not_violated` (conceptually.py lines
161-182): returns `([], None)` when `component.means` is falsy (None or
empty), otherwise calls `analyze_single(client, component, model_idx)` —
with the component in the `model_idx` position and the model index in the
`component` position, exactly as the source does. -/
def not_violated (run : RunFn) (client : LLMClient) (model_idx : Int)
    (component : QUSComponent) :
    Except PyError (List Violation × Option LLMResult) :=
  match component.means with
  | Option.none => Except.ok ([], Option.none)
  | some m =>
    if m = "" then Except.ok ([], Option.none)
    else analyze_single run client (DynVal.comp component) (DynVal.int model_idx)

lemma partMapGet_error_iff (k : PyVal) :
    (∃ e, partMapGet k = Except.error e) ↔ hashable k = false := by
  cases k <;> simp [partMapGet, hashable]

lemma partMapGet_ok_cases (k : PyVal) (p : Option String)
    (h : partMapGet k = Except.ok p) :
    p = Option.none ∨ p = some "means" ∨ p = some "ends" := by
  cases k with
  | str s =>
    simp only [partMapGet, Except.ok.injEq] at h
    subst h
    split
    · simp
    · split <;> simp
  | list xs => exact absurd h (by simp [partMapGet])
  | dict es => exact absurd h (by simp [partMapGet])
  | none => simp only [partMapGet, Except.ok.injEq] at h; exact Or.inl h.symm
  | bool b => simp only [partMapGet, Except.ok.injEq] at h; exact Or.inl h.symm
  | int n => simp only [partMapGet, Except.ok.injEq] at h; exact Or.inl h.symm

lemma convEntries_eq_ok_iff (xs : List PyVal) (vs : List Violation) :
    convEntries xs = Except.ok vs ↔
      (xs.all entryPartHashable = true ∧ vs = xs.filterMap entryVio) := by
  induction xs generalizing vs with
  | nil => simp [convEntries, eq_comm]
  | cons t ts ih =>
    cases t with
    | dict fs =>
      cases hp : partMapGet (dictGetD fs "part" (PyVal.str "")) with
      | error e =>
        have hh : hashable (dictGetD fs "part" (PyVal.str "")) = false :=
          (partMapGet_error_iff _).mp ⟨e, hp⟩
        simp [convEntries, hp, entryPartHashable, hh]
      | ok p =>
        have hh : hashable (dictGetD fs "part" (PyVal.str "")) = true := by
          by_contra hcontra
          rcases (partMapGet_error_iff (dictGetD fs "part" (PyVal.str ""))).mpr
            (by simpa using hcontra) with ⟨e, he⟩
          rw [he] at hp
          exact Except.noConfusion hp
        cases hr : convEntries ts with
        | error e =>
          have : ¬ (ts.all entryPartHashable = true ∧
              (ts.filterMap entryVio) = ts.filterMap entryVio) := by
            intro hand
            have := (ih (ts.filterMap entryVio)).mpr ⟨hand.1, rfl⟩
            rw [hr] at this
            exact Except.noConfusion this
          have hts : ts.all entryPartHashable = false := by
            rcases Bool.eq_false_or_eq_true (ts.all entryPartHashable) with hT | hF
            · exact absurd ⟨hT, rfl⟩ this
            · exact hF
          simp [convEntries, hp, hr, entryPartHashable, hh, hts]
        | ok rest =>
          have hts : ts.all entryPartHashable = true ∧ rest = ts.filterMap entryVio :=
            (ih rest).mp hr
          simp [convEntries, hp, hr, entryPartHashable, hh, hts.1, entryVio,
            List.filterMap_cons, hts.2, eq_comm]
    | none => simpa [convEntries, entryPartHashable, entryVio] using ih vs
    | bool b => simpa [convEntries, entryPartHashable, entryVio] using ih vs
    | int n => simpa [convEntries, entryPartHashable, entryVio] using ih vs
    | str s => simpa [convEntries, entryPartHashable, entryVio] using ih vs
    | list ys => simpa [convEntries, entryPartHashable, entryVio] using ih vs

lemma partMapGet_ok_of_hashable (k : PyVal) (h : hashable k = true) :
    ∃ p, partMapGet k = Except.ok p := by
  cases k <;> simp_all [partMapGet, hashable]

lemma entryVio_parts (t : PyVal) (v : Violation) (h : entryVio t = some v) :
    v.parts = ∅ ∨ v.parts = {"means"} ∨ v.parts = {"ends"} := by
  cases t with
  | dict fs =>
    simp only [entryVio] at h
    cases hp : partMapGet (dictGetD fs "part" (PyVal.str "")) with
    | error e => rw [hp] at h; exact Option.noConfusion h
    | ok p =>
      rw [hp] at h
      injection h with h
      subst h
      rcases partMapGet_ok_cases _ _ hp with h | h | h <;> subst h <;> simp [partsOf]
  | none => simp [entryVio] at h
  | bool b => simp [entryVio] at h
  | int n => simp [entryVio] at h
  | str s => simp [entryVio] at h
  | list ys => simp [entryVio] at h

lemma parseVerdict_dict_ok (es : List (String × PyVal)) (d : CSVerdictData)
    (h : parseVerdict (PyVal.dict es) = Except.ok d) :
    ∃ vios, convEntries (entriesOf es) = Except.ok vios ∧
      d = ⟨parseValid (dictGetD es "valid" (PyVal.bool false)),
           if !truthy (parseValid (dictGetD es "valid" (PyVal.bool false)))
               && vios.isEmpty
           then vios ++ [defaultVio] else vios⟩ := by
  simp only [parseVerdict] at h
  cases hc : convEntries (entriesOf es) with
  | error e => rw [hc] at h; exact Except.noConfusion h
  | ok vios =>
    rw [hc] at h
    injection h with h
    exact ⟨vios, rfl, h.symm⟩

/-- C1 (counterexample): the invariant "valid false implies a non-empty
violation list" fails as stated, because a non-dictionary input (here the
string `"not a dict"`) makes `__parser` return early with `valid` false
and an empty violation list, skipping the placeholder synthesis. -/
theorem cs_invalid_nonempty_cex :
    ¬ (∀ raw d, parseVerdict raw = Except.ok d →
        d.valid = PyVal.bool false → d.violations ≠ []) :=
  fun h => h (PyVal.str "not a dict") ⟨PyVal.bool false, []⟩ rfl rfl rfl

/-- C1 (amended): for every dictionary input, if the parsed verdict has
`valid` equal to `False` then its violation list is non-empty — the
placeholder violation is appended exactly when no violation was
collected. -/
theorem cs_invalid_nonempty (es : List (String × PyVal)) (d : CSVerdictData)
    (hok : parseVerdict (PyVal.dict es) = Except.ok d)
    (hval : d.valid = PyVal.bool false) :
    d.violations ≠ [] := by
  rcases parseVerdict_dict_ok es d hok with ⟨vios, hc, hd⟩
  subst hd
  simp only at hval
  rw [hval]
  cases vios <;> simp [truthy]

/-- C1 (witness): the amended theorem applied to the empty dictionary,
whose verdict is `valid` false with exactly the placeholder violation. -/
theorem cs_invalid_nonempty_w :
    parseVerdict (PyVal.dict []) =
      Except.ok ⟨PyVal.bool false, [defaultVio]⟩ ∧
    (⟨PyVal.bool false, [defaultVio]⟩ : CSVerdictData).valid = PyVal.bool false ∧
    (⟨PyVal.bool false, [defaultVio]⟩ : CSVerdictData).violations ≠ [] :=
  ⟨rfl, rfl, cs_invalid_nonempty [] ⟨PyVal.bool false, [defaultVio]⟩ rfl rfl⟩

/-- C4 (counterexample): the `valid` field of a parsed verdict is not
always a boolean: the input `{"valid": 1}` stores the integer `1`
unchanged, because the normalisation only handles strings and `None`. -/
theorem cs_valid_bool_cex :
    ¬ (∀ es d, parseVerdict (PyVal.dict es) = Except.ok d →
        isBoolB d.valid = true) := fun h => by
  have h1 := h [("valid", PyVal.int 1)] ⟨PyVal.int 1, []⟩ rfl
  simp [isBoolB] at h1

/-- C4 (amended): a missing `valid` key yields `False`, a `None` value
yields `False`, a string compares (case-sensitively) against `"true"`, a
boolean passes through — but every other value (integer, list, dict) is
stored unchanged in the `valid` field, which then is not a boolean. -/
theorem cs_valid_field
    (es1 es2 : List (String × PyVal)) (d1 d2 : CSVerdictData)
    (s : String) (w : PyVal)
    (h1 : parseVerdict (PyVal.dict es1) = Except.ok d1)
    (h1v : dictGet es1 "valid" = some (PyVal.str s))
    (h2 : parseVerdict (PyVal.dict es2) = Except.ok d2)
    (h2v : dictGet es2 "valid" = some w)
    (h2s : isStrB w = false) (h2n : w ≠ PyVal.none) :
    d1.valid = PyVal.bool (s == "true") ∧
    d2.valid = w ∧
    parseVerdict (PyVal.dict []) =
      Except.ok ⟨PyVal.bool false, [defaultVio]⟩ ∧
    parseVerdict (PyVal.dict [("valid", PyVal.none)]) =
      Except.ok ⟨PyVal.bool false, [defaultVio]⟩ ∧
    parseVerdict (PyVal.dict [("valid", PyVal.bool true)]) =
      Except.ok ⟨PyVal.bool true, []⟩ ∧
    parseVerdict (PyVal.dict [("valid", PyVal.int 1)]) =
      Except.ok ⟨PyVal.int 1, []⟩ := by
  refine ⟨?_, ?_, rfl, rfl, rfl, rfl⟩
  · rcases parseVerdict_dict_ok es1 d1 h1 with ⟨vios, _, hd⟩
    subst hd
    simp [dictGetD, h1v, parseValid]
  · rcases parseVerdict_dict_ok es2 d2 h2 with ⟨vios, _, hd⟩
    subst hd
    simp only [dictGetD, h2v, Option.getD_some]
    cases w <;> simp_all [parseValid, isStrB]

/-- C4 (witness): the amended theorem at the string `"True"` (parsed to
`False` by exact match) and at the non-string, non-None value `[]` (an
empty list, stored unchanged). -/
theorem cs_valid_field_w :
    parseVerdict (PyVal.dict [("valid", PyVal.str "True")]) =
      Except.ok ⟨PyVal.bool false, [defaultVio]⟩ ∧
    dictGet [("valid", PyVal.str "True")] "valid" = some (PyVal.str "True") ∧
    parseVerdict (PyVal.dict [("valid", PyVal.list [])]) =
      Except.ok ⟨PyVal.list [], [defaultVio]⟩ ∧
    dictGet [("valid", PyVal.list [])] "valid" = some (PyVal.list []) ∧
    isStrB (PyVal.list []) = false ∧
    PyVal.list [] ≠ PyVal.none ∧
    ((⟨PyVal.bool false, [defaultVio]⟩ : CSVerdictData).valid =
        PyVal.bool ("True" == "true") ∧
      (⟨PyVal.list [], [defaultVio]⟩ : CSVerdictData).valid = PyVal.list [] ∧
      parseVerdict (PyVal.dict []) =
        Except.ok ⟨PyVal.bool false, [defaultVio]⟩ ∧
      parseVerdict (PyVal.dict [("valid", PyVal.none)]) =
        Except.ok ⟨PyVal.bool false, [defaultVio]⟩ ∧
      parseVerdict (PyVal.dict [("valid", PyVal.bool true)]) =
        Except.ok ⟨PyVal.bool true, []⟩ ∧
      parseVerdict (PyVal.dict [("valid", PyVal.int 1)]) =
        Except.ok ⟨PyVal.int 1, []⟩) :=
  ⟨rfl, rfl, rfl, rfl, rfl, by simp,
    cs_valid_field [("valid", PyVal.str "True")] [("valid", PyVal.list [])]
      ⟨PyVal.bool false, [defaultVio]⟩ ⟨PyVal.list [], [defaultVio]⟩
      "True" (PyVal.list []) rfl rfl rfl rfl rfl (by simp)⟩

/-- C9: the string form of `valid` is matched case-sensitively against the
exact literal `"true"`; in particular `"True"` and `"TRUE"` parse to
`False`. -/
theorem cs_valid_case_sensitive (s : String) :
    parseVerdict (PyVal.dict [("valid", PyVal.str s)]) =
      Except.ok ⟨PyVal.bool (s == "true"),
        if s == "true" then [] else [defaultVio]⟩ ∧
    parseVerdict (PyVal.dict [("valid", PyVal.str "true")]) =
      Except.ok ⟨PyVal.bool true, []⟩ ∧
    parseVerdict (PyVal.dict [("valid", PyVal.str "True")]) =
      Except.ok ⟨PyVal.bool false, [defaultVio]⟩ ∧
    parseVerdict (PyVal.dict [("valid", PyVal.str "TRUE")]) =
      Except.ok ⟨PyVal.bool false, [defaultVio]⟩ := by
  refine ⟨?_, rfl, rfl, rfl⟩
  cases h : (s == "true") <;>
    simp [parseVerdict, entriesOf, dictGetD, dictGet, convEntries,
      parseValid, truthy, h]

/-- C5 (counterexample): `__parser` is not total on JSON-like inputs: a
violation entry whose `part` value is a list (unhashable) makes
`_PART_MAP.get` raise `TypeError`, which propagates out of the parser. -/
theorem cs_total_cex :
    parseVerdict
      (PyVal.dict [("violations",
        PyVal.list [PyVal.dict [("part", PyVal.list [])]])]) =
      Except.error PyError.typeError := rfl

/-- C5 (amended): the parser returns a verdict without raising whenever
every `violations` entry has a hashable `part` value (which holds for all
string, numeric, boolean or absent parts); every non-dictionary input
yields the default verdict `(False, [])`; and a `violations` value that is
not a list is treated exactly like an absent `violations` key. -/
theorem cs_total_on_hashable :
    (∀ raw, violationsHashOK raw = true →
      (parseVerdict raw).toOption.isSome = true) ∧
    (∀ raw, isDictB raw = false →
      parseVerdict raw = Except.ok ⟨PyVal.bool false, []⟩) ∧
    (∀ es w, dictGet es "violations" = Option.none → isListB w = false →
      parseVerdict (PyVal.dict (("violations", w) :: es)) =
        parseVerdict (PyVal.dict es)) := by
  refine ⟨?_, ?_, ?_⟩
  · intro raw hOK
    cases raw with
    | dict es =>
      have hex : ∃ vs, convEntries (entriesOf es) = Except.ok vs := by
        simp only [violationsHashOK] at hOK
        unfold entriesOf
        cases hv : dictGetD es "violations" (PyVal.list []) with
        | list xs =>
          rw [hv] at hOK
          exact ⟨xs.filterMap entryVio,
            (convEntries_eq_ok_iff _ _).mpr ⟨hOK, rfl⟩⟩
        | none => exact ⟨[], rfl⟩
        | bool b => exact ⟨[], rfl⟩
        | int n => exact ⟨[], rfl⟩
        | str s => exact ⟨[], rfl⟩
        | dict fs => exact ⟨[], rfl⟩
      rcases hex with ⟨vs, hvs⟩
      simp only [parseVerdict, hvs]
      rfl
    | none => rfl
    | bool b => rfl
    | int n => rfl
    | str s => rfl
    | list xs => rfl
  · intro raw h
    cases raw <;> simp_all [isDictB, parseVerdict]
  · intro es w hnone hw
    have h1 : dictGetD (("violations", w) :: es) "valid" (PyVal.bool false) =
        dictGetD es "valid" (PyVal.bool false) := by
      simp [dictGetD, dictGet]
    have h2 : entriesOf (("violations", w) :: es) = [] := by
      unfold entriesOf
      cases w <;> simp_all [dictGetD, dictGet, isListB]
    have h3 : entriesOf es = [] := by
      unfold entriesOf
      simp [dictGetD, hnone]
    simp only [parseVerdict]
    rw [h1, h2, h3]

/-- C5 (witness): the amended theorem applied to a well-formed dictionary
input, to the non-dictionary input `"x"`, and to a `violations` value that
is the non-list `3`. -/
theorem cs_total_on_hashable_w :
    violationsHashOK
      (PyVal.dict [("violations",
        PyVal.list [PyVal.dict [("part", PyVal.str "[Means]")]])]) = true ∧
    (parseVerdict
      (PyVal.dict [("violations",
        PyVal.list [PyVal.dict [("part", PyVal.str "[Means]")]])])).toOption.isSome
      = true ∧
    isDictB (PyVal.str "x") = false ∧
    parseVerdict (PyVal.str "x") = Except.ok ⟨PyVal.bool false, []⟩ ∧
    dictGet ([] : List (String × PyVal)) "violations" = Option.none ∧
    isListB (PyVal.int 3) = false ∧
    parseVerdict (PyVal.dict [("violations", PyVal.int 3)]) =
      parseVerdict (PyVal.dict []) :=
  ⟨rfl, cs_total_on_hashable.1 _ rfl, rfl, cs_total_on_hashable.2.1 _ rfl,
    rfl, rfl, cs_total_on_hashable.2.2 [] (PyVal.int 3) rfl rfl⟩

/-- C3: every violation in a parsed verdict has `parts` drawn from the
vocabulary `{"means", "ends"}` — concretely `∅`, `{"means"}` or
`{"ends"}` — and the mapping is the one of `_PART_MAP`: a `part` field
`"[Means]"` gives `{"means"}`, `"[Ends]"` gives `{"ends"}`, and any other
hashable value (here the string `"[means]"` and the integer `7`) gives the
empty collection of parts. -/
theorem cs_parts_vocabulary (raw : PyVal) (d : CSVerdictData) (v : Violation)
    (hok : parseVerdict raw = Except.ok d) (hv : v ∈ d.violations) :
    (v.parts = (∅ : Finset String) ∨ v.parts = {"means"} ∨ v.parts = {"ends"}) ∧
    parseVerdict (PyVal.dict [("violations",
        PyVal.list [PyVal.dict [("part", PyVal.str "[Means]")]])]) =
      Except.ok ⟨PyVal.bool false, [⟨{"means"}, PyVal.str "", PyVal.none⟩]⟩ ∧
    parseVerdict (PyVal.dict [("violations",
        PyVal.list [PyVal.dict [("part", PyVal.str "[Ends]")]])]) =
      Except.ok ⟨PyVal.bool false, [⟨{"ends"}, PyVal.str "", PyVal.none⟩]⟩ ∧
    parseVerdict (PyVal.dict [("violations",
        PyVal.list [PyVal.dict [("part", PyVal.str "[means]")]])]) =
      Except.ok ⟨PyVal.bool false, [⟨∅, PyVal.str "", PyVal.none⟩]⟩ ∧
    parseVerdict (PyVal.dict [("violations",
        PyVal.list [PyVal.dict [("part", PyVal.int 7)]])]) =
      Except.ok ⟨PyVal.bool false, [⟨∅, PyVal.str "", PyVal.none⟩]⟩ := by
  refine ⟨?_, rfl, rfl, rfl, rfl⟩
  cases raw with
  | dict es =>
    rcases parseVerdict_dict_ok es d hok with ⟨vios, hc, hd⟩
    subst hd
    simp only at hv
    have hvios := (convEntries_eq_ok_iff _ _).mp hc
    have hv2 : v ∈ vios ∨ v = defaultVio := by
      split at hv
      · rcases List.mem_append.mp hv with h | h
        · exact Or.inl h
        · exact Or.inr (by simpa using h)
      · exact Or.inl hv
    rcases hv2 with h | h
    · rw [hvios.2] at h
      rcases List.mem_filterMap.mp h with ⟨t, _, ht⟩
      exact entryVio_parts t v ht
    · subst h
      exact Or.inl rfl
  | none => simp [parseVerdict] at hok; simp [← hok] at hv
  | bool b => simp [parseVerdict] at hok; simp [← hok] at hv
  | int n => simp [parseVerdict] at hok; simp [← hok] at hv
  | str s => simp [parseVerdict] at hok; simp [← hok] at hv
  | list xs => simp [parseVerdict] at hok; simp [← hok] at hv

/-- C3 (witness): the vocabulary theorem applied to the concrete input
whose single violation entry has part `"[Means]"`. -/
theorem cs_parts_vocabulary_w :
    parseVerdict (PyVal.dict [("violations",
        PyVal.list [PyVal.dict [("part", PyVal.str "[Means]")]])]) =
      Except.ok ⟨PyVal.bool false, [⟨{"means"}, PyVal.str "", PyVal.none⟩]⟩ ∧
    (⟨{"means"}, PyVal.str "", PyVal.none⟩ : Violation) ∈
      (⟨PyVal.bool false,
        [⟨{"means"}, PyVal.str "", PyVal.none⟩]⟩ : CSVerdictData).violations ∧
    ((⟨{"means"}, PyVal.str "", PyVal.none⟩ : Violation).parts =
        (∅ : Finset String) ∨
      (⟨{"means"}, PyVal.str "", PyVal.none⟩ : Violation).parts = {"means"} ∨
      (⟨{"means"}, PyVal.str "", PyVal.none⟩ : Violation).parts = {"ends"}) :=
  ⟨rfl, by simp,
    (cs_parts_vocabulary
      (PyVal.dict [("violations",
        PyVal.list [PyVal.dict [("part", PyVal.str "[Means]")]])])
      ⟨PyVal.bool false, [⟨{"means"}, PyVal.str "", PyVal.none⟩]⟩
      ⟨{"means"}, PyVal.str "", PyVal.none⟩ rfl (by simp)).1⟩

/-- C6: in a dictionary input whose `violations` value is a list, every
dictionary entry contributes exactly one violation carrying that entry's
`issue` (defaulting to the empty string) and `suggestion` (defaulting to
`None`), non-dictionary entries are skipped, and the violations keep the
entries' order.  The hypothesis `xs.any isDictB` rules out the
placeholder-only case, in which no entry contributed anything. -/
theorem cs_entry_mapping (es : List (String × PyVal)) (xs : List PyVal)
    (d : CSVerdictData)
    (hvs : dictGetD es "violations" (PyVal.list []) = PyVal.list xs)
    (hok : parseVerdict (PyVal.dict es) = Except.ok d)
    (hne : xs.any isDictB = true) :
    d.violations.map (fun v => (v.issue, v.suggestion)) =
      xs.filterMap (fun t =>
        match t with
        | PyVal.dict fs =>
            some (dictGetD fs "issue" (PyVal.str ""),
                  dictGetD fs "suggestion" PyVal.none)
        | _ => Option.none) := by
  rcases parseVerdict_dict_ok es d hok with ⟨vios, hc, hd⟩
  subst hd
  have hes : entriesOf es = xs := by unfold entriesOf; rw [hvs]
  rw [hes] at hc
  obtain ⟨hall, hfm⟩ := (convEntries_eq_ok_iff _ _).mp hc
  subst hfm
  rcases List.any_eq_true.mp hne with ⟨t, htmem, htdict⟩
  obtain ⟨fs, rfl⟩ : ∃ fs, t = PyVal.dict fs := by
    cases t <;> simp_all [isDictB]
  have hhash : hashable (dictGetD fs "part" (PyVal.str "")) = true := by
    simpa [entryPartHashable] using List.all_eq_true.mp hall _ htmem
  rcases partMapGet_ok_of_hashable _ hhash with ⟨p, hp⟩
  have hsome : entryVio (PyVal.dict fs) =
      some ⟨partsOf p, dictGetD fs "issue" (PyVal.str ""),
            dictGetD fs "suggestion" PyVal.none⟩ := by
    simp [entryVio, hp]
  have hmem2 : (⟨partsOf p, dictGetD fs "issue" (PyVal.str ""),
      dictGetD fs "suggestion" PyVal.none⟩ : Violation) ∈
      xs.filterMap entryVio :=
    List.mem_filterMap.mpr ⟨_, htmem, hsome⟩
  have hempty : (xs.filterMap entryVio).isEmpty = false := by
    cases hfm2 : xs.filterMap entryVio with
    | nil => rw [hfm2] at hmem2; exact absurd hmem2 (List.not_mem_nil _)
    | cons a l => rfl
  simp only [hempty, Bool.and_false, if_neg, Bool.false_eq_true,
    not_false_eq_true]
  rw [List.map_filterMap]
  apply List.filterMap_congr
  intro u humem
  cases u with
  | dict gs =>
    have hh : hashable (dictGetD gs "part" (PyVal.str "")) = true := by
      simpa [entryPartHashable] using List.all_eq_true.mp hall _ humem
    rcases partMapGet_ok_of_hashable _ hh with ⟨q, hq⟩
    simp [entryVio, hq]
  | none => simp [entryVio]
  | bool b => simp [entryVio]
  | int n => simp [entryVio]
  | str s => simp [entryVio]
  | list ys => simp [entryVio]

/-- C6 (witness): the mapping theorem on a list with one skipped
non-dictionary entry and one dictionary entry carrying an issue and a
suggestion. -/
theorem cs_entry_mapping_w :
    dictGetD [("violations", PyVal.list [PyVal.int 5,
        PyVal.dict [("issue", PyVal.str "bad"), ("suggestion", PyVal.str "fix")]])]
        "violations" (PyVal.list []) =
      PyVal.list [PyVal.int 5,
        PyVal.dict [("issue", PyVal.str "bad"), ("suggestion", PyVal.str "fix")]] ∧
    parseVerdict (PyVal.dict [("violations", PyVal.list [PyVal.int 5,
        PyVal.dict [("issue", PyVal.str "bad"), ("suggestion", PyVal.str "fix")]])]) =
      Except.ok ⟨PyVal.bool false,
        [⟨∅, PyVal.str "bad", PyVal.str "fix"⟩]⟩ ∧
    ([PyVal.int 5,
        PyVal.dict [("issue", PyVal.str "bad"), ("suggestion", PyVal.str "fix")]].any
        isDictB) = true ∧
    ((⟨PyVal.bool false, [⟨∅, PyVal.str "bad", PyVal.str "fix"⟩]⟩ :
        CSVerdictData).violations.map (fun v => (v.issue, v.suggestion)) =
      [PyVal.int 5,
        PyVal.dict [("issue", PyVal.str "bad"), ("suggestion", PyVal.str "fix")]].filterMap
        (fun t =>
          match t with
          | PyVal.dict fs =>
              some (dictGetD fs "issue" (PyVal.str ""),
                    dictGetD fs "suggestion" PyVal.none)
          | _ => Option.none)) :=
  ⟨rfl, rfl, rfl,
    cs_entry_mapping
      [("violations", PyVal.list [PyVal.int 5,
        PyVal.dict [("issue", PyVal.str "bad"), ("suggestion", PyVal.str "fix")]])]
      [PyVal.int 5,
        PyVal.dict [("issue", PyVal.str "bad"), ("suggestion", PyVal.str "fix")]]
      ⟨PyVal.bool false, [⟨∅, PyVal.str "bad", PyVal.str "fix"⟩]⟩
      rfl rfl rfl⟩

/-- C2 (bug evaluation): `__not_violated` is not a pass-through.  The
source calls `analyze_single(client, component, model_idx)` with the last
two arguments swapped, so for a component with a non-empty means the model
index lands in the `component` parameter and the attribute access
`component.means` raises `AttributeError` — whereas the direct, correctly
ordered call `analyze_single(client, model_idx, component)` returns
normally (here with the analyzer stubbed to report a valid verdict). -/
theorem not_violated_swapped_args :
    not_violated (fun _ _ _ => (⟨PyVal.bool true, []⟩, Option.none)) ⟨⟩ 0
        ⟨some "book a room", Option.none⟩ =
      Except.error PyError.attributeError ∧
    analyze_single (fun _ _ _ => (⟨PyVal.bool true, []⟩, Option.none)) ⟨⟩
        (DynVal.int 0) (DynVal.comp ⟨some "book a room", Option.none⟩) =
      Except.ok ([], Option.none) :=
  ⟨rfl, rfl⟩

/-- C7: `analyze_list` is the pointwise map of `analyze_single` over the
component list: same length, and the i-th output is `analyze_single`
applied to the i-th component, in order. -/
theorem analyze_list_pointwise (run : RunFn) (client : LLMClient)
    (model_idx : Int) (components : List QUSComponent) (i : Nat) :
    (analyze_list run client model_idx components).length =
      components.length ∧
    (analyze_list run client model_idx components)[i]? =
      (components[i]?).map (fun c =>
        analyze_single run client (DynVal.int model_idx) (DynVal.comp c)) := by
  constructor
  · simp [analyze_list]
  · simp [analyze_list]

/-- C8: a component whose `means` is `None` short-circuits
`analyze_single` to `([], None)`; the result is the same for every
analyzer behaviour `run`, which expresses that neither the analyzer nor
the client is invoked. -/
theorem analyze_single_skips_none (run : RunFn) (client : LLMClient)
    (model_idx : Int) (ends : Option String) :
    analyze_single run client (DynVal.int model_idx)
        (DynVal.comp ⟨Option.none, ends⟩) =
      Except.ok ([], Option.none) := rfl

/-- C10: the empty-string means diverges at the two entry points: for
every analyzer behaviour, `__not_violated` returns `([], None)` without
reaching the parser call, while `analyze_single` on the same component
does not take its skip branch — its result depends on the analyzer, as
witnessed by two stub analyzers yielding different results. -/
theorem empty_means_divergence (ends : Option String) :
    (∀ (run : RunFn) (client : LLMClient) (model_idx : Int),
      not_violated run client model_idx ⟨some "", ends⟩ =
        Except.ok ([], Option.none)) ∧
    (∃ (run1 run2 : RunFn) (client : LLMClient) (model_idx : Int),
      analyze_single run1 client (DynVal.int model_idx)
          (DynVal.comp ⟨some "", ends⟩) ≠
        analyze_single run2 client (DynVal.int model_idx)
          (DynVal.comp ⟨some "", ends⟩)) := by
  constructor
  · intro run client model_idx
    rfl
  · refine ⟨fun _ _ _ => (⟨PyVal.bool true, [defaultVio]⟩, Option.none),
      fun _ _ _ => (⟨PyVal.bool true, []⟩, Option.none), ⟨⟩, 0, ?_⟩
    simp [analyze_single, getMeans, getEnds, defaultVio]
